import Mathlib

/-!
# Verification of the OpenAI-compatible streaming normalization engine

Shallow embedding of `src/adapter/adapters/openai/streamer.rs` (the
`OpenAIStreamer` state machine and its `poll_next` drive loop) together with
the intermediate event algebra of `src/adapter/inter_stream.rs`.

The JSON-extraction layer (`serde_json` parsing plus the `value_ext::x_take`
pointer reads) is abstracted: a message payload is represented by the fields
the streamer actually reads, each as an `Option` that is `none` exactly when
the corresponding `x_take` read fails or yields null/absent.  A payload whose
top-level JSON parse fails is represented by the `malformed` constructor.
-/

namespace GenAI

/-- Modelled from the spec: the "Usage Record" — token accounting data
normalized to one internal representation (`crate::chat::Usage`, whose source
is not part of the embedded files).  Only its identity matters to the
streamer, so it is a single counter here; `default` models Rust's
`Usage::default()` used by `unwrap_or_default()`. -/
structure Usage where
  tokens : Nat
deriving Repr, DecidableEq

instance : Inhabited Usage := ⟨⟨0⟩⟩

/-- `OpenAIToolCallFunction` from streamer.rs: partial function name and
argument text of one tool-call fragment (serde defaults give empty strings
for absent fields). -/
structure OpenAIToolCallFunction where
  name : String
  arguments : String
deriving Repr, DecidableEq

/-- `OpenAIToolCall` from streamer.rs: one tool-call fragment as decoded
from `/delta/tool_calls/0`. -/
structure OpenAIToolCall where
  index : Nat
  id : String
  function : OpenAIToolCallFunction
deriving Repr, DecidableEq

/-- The public `ToolCall` (`crate::chat::ToolCall`).  In the source,
`fn_arguments` is the JSON value obtained by parsing the assembled argument
text with `serde_json::from_str(..).unwrap_or_default()`; the JSON parser is
outside the embedded sources and no claim depends on the parsed value, so
the embedding carries the assembled argument text itself. -/
structure ToolCall where
  call_id : String
  fn_name : String
  fn_arguments : String
deriving Repr, DecidableEq

/-- `impl From<OpenAIToolCall> for ToolCall` (modulo the argument-text
abstraction recorded at `ToolCall`). -/
def OpenAIToolCall.toToolCall (t : OpenAIToolCall) : ToolCall :=
  { call_id := t.id, fn_name := t.function.name, fn_arguments := t.function.arguments }

/-- `InterStreamChunkTool` from inter_stream.rs. -/
structure InterStreamChunkTool where
  id : String
  name : String
  arguments : String
deriving Repr, DecidableEq

/-- `impl From<OpenAIToolCall> for InterStreamChunkTool`. -/
def OpenAIToolCall.toChunkTool (t : OpenAIToolCall) : InterStreamChunkTool :=
  { id := t.id, name := t.function.name, arguments := t.function.arguments }

/-- `InterStreamChunk` from inter_stream.rs. -/
inductive InterStreamChunk where
  | Content (s : String)
  | Tool (index : Nat) (t : InterStreamChunkTool)
deriving Repr, DecidableEq

/-- `InterReasoningChunk` from inter_stream.rs. -/
inductive InterReasoningChunk where
  | Content (s : String)
deriving Repr, DecidableEq

/-- `InterStreamEnd` from inter_stream.rs. -/
structure InterStreamEnd where
  captured_usage : Option Usage
  captured_content : Option String
  captured_reasoning_content : Option String
  captured_tools : List ToolCall
deriving Repr, DecidableEq

/-- `InterStreamEvent` from inter_stream.rs. -/
inductive InterStreamEvent where
  | Start
  | Chunk (c : InterStreamChunk)
  | ReasoningChunk (c : InterReasoningChunk)
  | End (e : InterStreamEnd)
deriving Repr, DecidableEq

/-- Modelled from the spec: the provider identity tag
(`crate::adapter::AdapterKind`, source not among the embedded files).  The
streamer distinguishes `Groq`, `Xai` and `DeepSeek`; the remaining variants
stand for the rest of the OpenAI-compatible family ("base dialect"). -/
inductive AdapterKind where
  | OpenAI
  | Ollama
  | Groq
  | Xai
  | DeepSeek
deriving Repr, DecidableEq

/-- Modelled from the spec: the streamer options
(`adapter::adapters::support::StreamerOptions`, source not among the
embedded files): the provider identity and the four independent capture
booleans supplied by the caller before the stream starts. -/
structure StreamerOptions where
  adapter_kind : AdapterKind
  capture_usage : Bool
  capture_content : Bool
  capture_reasoning_content : Bool
  capture_tools : Bool
deriving Repr, DecidableEq

/-- Modelled from the spec: the captured-data accumulator
(`adapter::adapters::support::StreamerCapturedData`, source not among the
embedded files): optional running content string, optional running reasoning
string, optional usage record, ordered list of finalized tool calls — the
exact fields streamer.rs reads and writes. -/
structure StreamerCapturedData where
  content : Option String
  reasoning_content : Option String
  usage : Option Usage
  tools : List ToolCall
deriving Repr, DecidableEq

/-- `StreamerCapturedData::default()`. -/
def StreamerCapturedData.init : StreamerCapturedData :=
  { content := none, reasoning_content := none, usage := none, tools := [] }

/-- The mutable state of `OpenAIStreamer`: the `done` latch, the captured
data, and the in-flight partial tool call (field
`partial_openai_tool_call` in the source; renamed `held_openai_tool_call`
here). -/
structure StreamerState where
  done : Bool
  captured_data : StreamerCapturedData
  held_openai_tool_call : Option OpenAIToolCall
deriving Repr, DecidableEq

/-- The state `OpenAIStreamer::new` starts from. -/
def StreamerState.init : StreamerState :=
  { done := false, captured_data := StreamerCapturedData.init, held_openai_tool_call := none }

/-- The first choice of a chunk payload, restricted to the fields the
streamer reads.  `finish_reason` is `some s` exactly when
`x_take::<String>("finish_reason")` succeeds (the field is present as a
string); `none` covers both an absent and a null finish reason.  Likewise
`content`, `tool_call` and `reasoning_content` are `none` exactly when the
corresponding `/delta/...` read yields nothing. -/
structure Choice where
  finish_reason : Option String
  content : Option String
  tool_call : Option OpenAIToolCall
  reasoning_content : Option String
deriving Repr, DecidableEq

/-- A successfully parsed chunk payload, restricted to the fields the
streamer reads.  `first_choice = none` covers an absent, null or unreadable
`/choices/0`.  `x_groq_usage` and `usage` stand for the results of
`x_take("/x_groq/usage")` resp. `x_take("usage")` composed with
`OpenAIAdapter::into_usage` (that conversion lives outside the embedded
files); `none` when extraction fails. -/
structure MessageBody where
  first_choice : Option Choice
  x_groq_usage : Option Usage
  usage : Option Usage
deriving Repr, DecidableEq

/-- The payload of one SSE message: the literal `[DONE]` sentinel, a payload
whose JSON parse fails, or a parsed chunk. -/
inductive MessageData where
  | done
  | malformed
  | parsed (body : MessageBody)
deriving Repr, DecidableEq

/-- One item yielded ready by the underlying `EventSource`:
`Some(Ok(Event::Open))`, `Some(Ok(Event::Message(..)))` or `Some(Err(..))`. -/
inductive SourceItem where
  | opened
  | message (d : MessageData)
  | transportError
deriving Repr, DecidableEq

/-- One result surfaced by a `poll_next` call that returned
`Poll::Ready(Some(..))`: an event, or one of the two terminal errors
(`Error::StreamParse`, `Error::ReqwestEventSource`). -/
inductive StreamOut where
  | event (e : InterStreamEvent)
  | parseError
  | transportError
deriving Repr, DecidableEq

/-- The `message.data == "[DONE]"` branch of `poll_next` (streamer.rs
lines 57-84): set the `done` latch, take the usage when capturing it, flush
a held partial tool call into the accumulator when capturing tools, and
build the `InterStreamEnd` — `content` and `reasoning_content` are moved out
with `take()`, while `tools` is `clone()`d. -/
def handleDoneMessage (o : StreamerOptions) (st : StreamerState) :
    StreamerState × InterStreamEvent :=
  let captured_usage := if o.capture_usage then st.captured_data.usage else none
  let cd1 := if o.capture_usage then { st.captured_data with usage := none }
             else st.captured_data
  let flushed :=
    if o.capture_tools then
      match st.held_openai_tool_call with
      | some tool => ({ cd1 with tools := cd1.tools ++ [tool.toToolCall] },
                      (none : Option OpenAIToolCall))
      | none => (cd1, none)
    else (cd1, st.held_openai_tool_call)
  let cd2 := flushed.1
  let inter_stream_end : InterStreamEnd :=
    { captured_usage := captured_usage
      captured_content := cd2.content
      captured_reasoning_content := cd2.reasoning_content
      captured_tools := cd2.tools }
  ({ done := true
     captured_data := { cd2 with content := none, reasoning_content := none }
     held_openai_tool_call := flushed.2 },
   InterStreamEvent.End inter_stream_end)

/-- The same-index append of a tool-call fragment onto the held partial call
(streamer.rs lines 166-168): `push_str` of `id`, `function.name` and
`function.arguments` in arrival order. -/
def appendToolFragment (p tool : OpenAIToolCall) : OpenAIToolCall :=
  { p with
    id := p.id ++ tool.id
    function :=
      { name := p.function.name ++ tool.function.name
        arguments := p.function.arguments ++ tool.function.arguments } }

/-- Processing of one successfully parsed chunk payload (streamer.rs
lines 94-219): the `if let` chain over the first choice — finish reason,
then content delta, then tool-call delta, then reasoning delta — and the
usage-only branch when there is no first choice.  Returns the new state and
the event emitted for this message, if any (`none` means the drive loop
`continue`s). -/
def processParsed (o : StreamerOptions) (st : StreamerState) (b : MessageBody) :
    StreamerState × Option InterStreamEvent :=
  match b.first_choice with
  | some first_choice =>
    if first_choice.finish_reason.isSome then
      -- Finish Reason branch: capture usage per provider, emit nothing.
      let cd :=
        if o.capture_usage then
          match o.adapter_kind with
          | AdapterKind.Groq =>
            { st.captured_data with usage := some (b.x_groq_usage.getD default) }
          | AdapterKind.Xai =>
            { st.captured_data with usage := some (b.usage.getD default) }
          | AdapterKind.DeepSeek =>
            { st.captured_data with usage := some (b.usage.getD default) }
          | _ => st.captured_data
        else st.captured_data
      ({ st with captured_data := cd }, none)
    else
      match first_choice.content with
      | some content =>
        -- Content delta: capture if enabled, emit the chunk.
        let cd :=
          if o.capture_content then
            match st.captured_data.content with
            | some c => { st.captured_data with content := some (c ++ content) }
            | none => { st.captured_data with content := some content }
          else st.captured_data
        ({ st with captured_data := cd },
         some (InterStreamEvent.Chunk (InterStreamChunk.Content content)))
      | none =>
        match first_choice.tool_call with
        | some tool =>
          -- Tool-call delta: merge into the held partial call, emit the
          -- incoming fragment.
          let merged :=
            match st.held_openai_tool_call with
            | some p =>
              if tool.index = p.index then
                (some (appendToolFragment p tool), st.captured_data)
              else
                (some tool,
                 if o.capture_tools then
                   { st.captured_data with tools := st.captured_data.tools ++ [p.toToolCall] }
                 else st.captured_data)
            | none => (some tool, st.captured_data)
          ({ st with held_openai_tool_call := merged.1, captured_data := merged.2 },
           some (InterStreamEvent.Chunk (InterStreamChunk.Tool tool.index tool.toChunkTool)))
        | none =>
          match first_choice.reasoning_content with
          | some reasoning_content =>
            -- Reasoning delta: capture if enabled, emit the chunk.
            let cd :=
              if o.capture_reasoning_content then
                match st.captured_data.reasoning_content with
                | some c =>
                  { st.captured_data with reasoning_content := some (c ++ reasoning_content) }
                | none =>
                  { st.captured_data with reasoning_content := some reasoning_content }
              else st.captured_data
            ({ st with captured_data := cd },
             some (InterStreamEvent.ReasoningChunk
               (InterReasoningChunk.Content reasoning_content)))
          | none =>
            -- Empty choice content: nothing emitted, state unchanged.
            (st, none)
  | none =>
    -- Usage message branch (no first choice).
    if o.adapter_kind ≠ AdapterKind.Groq ∧ o.adapter_kind ≠ AdapterKind.Xai ∧
        o.adapter_kind ≠ AdapterKind.DeepSeek ∧
        st.captured_data.usage = none ∧ o.capture_usage then
      ({ st with captured_data :=
          { st.captured_data with usage := some (b.usage.getD default) } }, none)
    else (st, none)

/-- Processing of one ready source item inside the `while let` loop of
`poll_next`: `Open` emits `Start`; a message is dispatched on its payload;
a source error surfaces `Error::ReqwestEventSource`.  The second component
is `none` exactly when the loop `continue`s without returning. -/
def processItem (o : StreamerOptions) (st : StreamerState) (it : SourceItem) :
    StreamerState × Option StreamOut :=
  match it with
  | SourceItem.opened => (st, some (StreamOut.event InterStreamEvent.Start))
  | SourceItem.transportError => (st, some StreamOut.transportError)
  | SourceItem.message MessageData.done =>
    let r := handleDoneMessage o st
    (r.1, some (StreamOut.event r.2))
  | SourceItem.message MessageData.malformed => (st, some StreamOut.parseError)
  | SourceItem.message (MessageData.parsed b) =>
    let r := processParsed o st b
    (r.1, (r.2).map StreamOut.event)

/-- Result of one `poll_next` call: `Ready(Some(..))` carrying a
`StreamOut`, `Ready(None)` because the `done` latch was set, or `Pending`
because the source had no more ready items. -/
inductive DriveResult where
  | out (r : StreamOut)
  | doneNone
  | pending
deriving Repr, DecidableEq

/-- The `while let` loop of `poll_next` over the buffered ready items of the
source: consume items until one produces a result; an exhausted buffer is
`Pending`.  Returns the state, the unconsumed remainder of the input, and
the result. -/
def driveLoop (o : StreamerOptions) (st : StreamerState) :
    List SourceItem → StreamerState × List SourceItem × DriveResult
  | [] => (st, [], DriveResult.pending)
  | it :: rest =>
    match processItem o st it with
    | (st1, some r) => (st1, rest, DriveResult.out r)
    | (st1, none) => driveLoop o st1 rest

/-- One `poll_next` call: if the `done` latch is set, return `Ready(None)`
without touching the source (streamer.rs lines 44-48); otherwise run the
drive loop. -/
def drive (o : StreamerOptions) (st : StreamerState) (input : List SourceItem) :
    StreamerState × List SourceItem × DriveResult :=
  if st.done then (st, input, DriveResult.doneNone)
  else driveLoop o st input

/-- Repeatedly driving the streamer over a list of ready source items,
collecting every surfaced result in order.  The `done` check guards each
step, so items arriving after the `[DONE]` sentinel are never consumed. -/
def runItems (o : StreamerOptions) (st : StreamerState) :
    List SourceItem → List StreamOut × StreamerState
  | [] => ([], st)
  | it :: rest =>
    if st.done then ([], st)
    else
      match processItem o st it with
      | (st1, none) => runItems o st1 rest
      | (st1, some r) =>
        let tail := runItems o st1 rest
        (r :: tail.1, tail.2)

/-! ## Statement-side helpers -/

/-- A choice-bearing chunk carrying only a content delta. -/
def contentMsg (s : String) : MessageBody where
  first_choice :=
    some { finish_reason := none, content := some s, tool_call := none, reasoning_content := none }
  x_groq_usage := none
  usage := none

/-- A choice-bearing chunk carrying only a tool-call delta. -/
def toolMsg (t : OpenAIToolCall) : MessageBody where
  first_choice :=
    some { finish_reason := none, content := none, tool_call := some t, reasoning_content := none }
  x_groq_usage := none
  usage := none

/-- A choice-bearing chunk carrying only a reasoning delta. -/
def reasoningMsg (s : String) : MessageBody where
  first_choice :=
    some { finish_reason := none, content := none, tool_call := none, reasoning_content := some s }
  x_groq_usage := none
  usage := none

/-- A finish-signal chunk (finish_reason present), with the two possible
usage attachment locations. -/
def finishMsg (xg u : Option Usage) : MessageBody where
  first_choice :=
    some { finish_reason := some "stop", content := none, tool_call := none,
           reasoning_content := none }
  x_groq_usage := xg
  usage := u

/-- A usage-only chunk: no first choice. -/
def usageOnlyMsg (u : Option Usage) : MessageBody :=
  { first_choice := none, x_groq_usage := none, usage := u }

/-- Shorthand: a parsed chunk as a source item. -/
def msgItem (b : MessageBody) : SourceItem :=
  SourceItem.message (MessageData.parsed b)

/-- The content delta the streamer handles in a parsed payload, if any:
present first choice, no finish reason, `/delta/content` present. -/
def contentDelta? (b : MessageBody) : Option String :=
  match b.first_choice with
  | some c => if c.finish_reason.isSome then none else c.content
  | none => none

/-- The tool-call delta the streamer handles in a parsed payload, if any
(content takes priority over it). -/
def toolDelta? (b : MessageBody) : Option OpenAIToolCall :=
  match b.first_choice with
  | some c =>
    if c.finish_reason.isSome then none
    else match c.content with
    | some _ => none
    | none => c.tool_call
  | none => none

/-- The reasoning delta the streamer handles in a parsed payload, if any
(content and tool call take priority over it). -/
def reasoningDelta? (b : MessageBody) : Option String :=
  match b.first_choice with
  | some c =>
    if c.finish_reason.isSome then none
    else match c.content with
    | some _ => none
    | none => match c.tool_call with
      | some _ => none
      | none => c.reasoning_content
  | none => none

/-- Whether the payload is a finish-signal message. -/
def isFinishMsg (b : MessageBody) : Bool :=
  match b.first_choice with
  | some c => c.finish_reason.isSome
  | none => false

/-- Whether the payload has no first choice (the usage-message branch). -/
def isUsageOnlyMsg (b : MessageBody) : Bool := b.first_choice.isNone

/-- Concatenation of a list of strings in order. -/
def strConcat (l : List String) : String := l.foldr (fun a r => a ++ r) ""

/-! ## Basic run lemmas -/

theorem runItems_nil (o : StreamerOptions) (st : StreamerState) :
    runItems o st [] = ([], st) := rfl

theorem runItems_cons_done (o : StreamerOptions) (st : StreamerState)
    (it : SourceItem) (rest : List SourceItem) (h : st.done = true) :
    runItems o st (it :: rest) = ([], st) := by
  simp [runItems, h]

/-- A streamer whose done latch is set produces nothing on any input. -/
theorem runItems_done (o : StreamerOptions) (st : StreamerState)
    (l : List SourceItem) (h : st.done = true) :
    runItems o st l = ([], st) := by
  cases l with
  | nil => rfl
  | cons it rest => simp [runItems, h]

theorem runItems_cons_silent (o : StreamerOptions) (st : StreamerState)
    (it : SourceItem) (rest : List SourceItem) (st1 : StreamerState)
    (h : st.done = false) (hp : processItem o st it = (st1, none)) :
    runItems o st (it :: rest) = runItems o st1 rest := by
  simp [runItems, h, hp]

theorem runItems_cons_out (o : StreamerOptions) (st : StreamerState)
    (it : SourceItem) (rest : List SourceItem) (st1 : StreamerState) (r : StreamOut)
    (h : st.done = false) (hp : processItem o st it = (st1, some r)) :
    runItems o st (it :: rest) =
      (r :: (runItems o st1 rest).1, (runItems o st1 rest).2) := by
  simp [runItems, h, hp]

/-- Running over a concatenation composes: the second half starts from the
state the first half reached (and produces nothing if that state is done). -/
theorem runItems_append (o : StreamerOptions) (st : StreamerState)
    (l1 l2 : List SourceItem) :
    runItems o st (l1 ++ l2) =
      ((runItems o st l1).1 ++ (runItems o (runItems o st l1).2 l2).1,
       (runItems o (runItems o st l1).2 l2).2) := by
  induction l1 generalizing st with
  | nil => simp [runItems]
  | cons it rest ih =>
    by_cases hd : st.done
    · simp [runItems, hd, runItems_done o st l2 hd]
    · simp only [List.cons_append, runItems, hd, if_neg, Bool.not_eq_true] at *
      cases hp : processItem o st it with
      | mk st1 r? =>
        cases r? with
        | none => simp [hp, ih st1]
        | some r => simp [hp, ih st1]

/-! ## Tool-call fragment merging (C1, C5) -/

theorem appendToolFragment_index (p t : OpenAIToolCall) :
    (appendToolFragment p t).index = p.index := rfl

theorem foldl_appendToolFragment_index (p : OpenAIToolCall) (l : List OpenAIToolCall) :
    (l.foldl appendToolFragment p).index = p.index := by
  induction l generalizing p with
  | nil => rfl
  | cons f rest ih => simpa [appendToolFragment] using ih (appendToolFragment p f)

theorem foldl_appendToolFragment_id (p : OpenAIToolCall) (l : List OpenAIToolCall) :
    (l.foldl appendToolFragment p).id = p.id ++ strConcat (l.map (fun f => f.id)) := by
  induction l generalizing p with
  | nil => simp [strConcat]
  | cons f rest ih =>
    rw [List.foldl_cons, ih (appendToolFragment p f)]
    simp [appendToolFragment, strConcat, String.append_assoc]

theorem foldl_appendToolFragment_name (p : OpenAIToolCall) (l : List OpenAIToolCall) :
    (l.foldl appendToolFragment p).function.name =
      p.function.name ++ strConcat (l.map (fun f => f.function.name)) := by
  induction l generalizing p with
  | nil => simp [strConcat]
  | cons f rest ih =>
    rw [List.foldl_cons, ih (appendToolFragment p f)]
    simp [appendToolFragment, strConcat, String.append_assoc]

theorem foldl_appendToolFragment_arguments (p : OpenAIToolCall) (l : List OpenAIToolCall) :
    (l.foldl appendToolFragment p).function.arguments =
      p.function.arguments ++ strConcat (l.map (fun f => f.function.arguments)) := by
  induction l generalizing p with
  | nil => simp [strConcat]
  | cons f rest ih =>
    rw [List.foldl_cons, ih (appendToolFragment p f)]
    simp [appendToolFragment, strConcat, String.append_assoc]

/-- Step behavior: a tool fragment whose index equals the held call's index
is appended onto the held call; the accumulator is untouched and the
incoming fragment is emitted. -/
theorem processItem_toolMsg_same_index (o : StreamerOptions) (st : StreamerState)
    (p t : OpenAIToolCall) (hh : st.held_openai_tool_call = some p)
    (hi : t.index = p.index) :
    processItem o st (msgItem (toolMsg t)) =
      ({ st with held_openai_tool_call := some (appendToolFragment p t) },
       some (StreamOut.event (InterStreamEvent.Chunk
         (InterStreamChunk.Tool t.index t.toChunkTool)))) := by
  simp [processItem, processParsed, msgItem, toolMsg, hh, hi]

/-- Step behavior: a tool fragment arriving with no held call becomes the
held call; nothing is finalized. -/
theorem processItem_toolMsg_fresh (o : StreamerOptions) (st : StreamerState)
    (t : OpenAIToolCall) (hh : st.held_openai_tool_call = none) :
    processItem o st (msgItem (toolMsg t)) =
      ({ st with held_openai_tool_call := some t },
       some (StreamOut.event (InterStreamEvent.Chunk
         (InterStreamChunk.Tool t.index t.toChunkTool)))) := by
  simp [processItem, processParsed, msgItem, toolMsg, hh]

/-- Running a block of tool fragments that all share the held call's index:
each fragment is emitted as a chunk, and the held call accumulates all of
them by `appendToolFragment` in arrival order. -/
theorem runItems_toolMsgs_same_index (o : StreamerOptions)
    (frags : List OpenAIToolCall) (st : StreamerState) (p : OpenAIToolCall)
    (hd : st.done = false) (hh : st.held_openai_tool_call = some p)
    (hfr : ∀ f ∈ frags, f.index = p.index) :
    runItems o st (frags.map fun f => msgItem (toolMsg f)) =
      (frags.map fun f => StreamOut.event (InterStreamEvent.Chunk
         (InterStreamChunk.Tool f.index f.toChunkTool)),
       { st with held_openai_tool_call := some (frags.foldl appendToolFragment p) }) := by
  induction frags generalizing st p with
  | nil => simp [runItems, ← hh]
  | cons f rest ih =>
    have hf : f.index = p.index := hfr f (by simp)
    have hstep := processItem_toolMsg_same_index o st p f hh hf
    rw [List.map_cons, List.map_cons,
      runItems_cons_out o st _ _ _ _ hd hstep,
      ih { st with held_openai_tool_call := some (appendToolFragment p f) }
        (appendToolFragment p f) hd rfl
        (fun g hg => by rw [appendToolFragment_index]; exact hfr g (by simp [hg]))]
    simp

/-- Claim C1: for every sequence of tool-call fragments that all carry the
same call index, processed in arrival order by the streamer's merge step,
the finalized tool call flushed at the end-of-stream sentinel has its
arguments equal to the concatenation of each fragment's arguments text in
arrival order, and likewise its id and function name are the concatenations
of the fragments' id and name texts. -/
theorem C1_same_index_fragments_concatenate (o : StreamerOptions)
    (first : OpenAIToolCall) (rest : List OpenAIToolCall)
    (hrest : ∀ f ∈ rest, f.index = first.index) :
    (runItems { o with capture_tools := true } StreamerState.init
        (((first :: rest).map fun f => msgItem (toolMsg f)) ++
          [SourceItem.message MessageData.done])).1 =
      ((first :: rest).map fun f => StreamOut.event (InterStreamEvent.Chunk
          (InterStreamChunk.Tool f.index f.toChunkTool))) ++
        [StreamOut.event (InterStreamEvent.End
          { captured_usage := none
            captured_content := none
            captured_reasoning_content := none
            captured_tools :=
              [{ call_id := strConcat ((first :: rest).map fun f => f.id)
                 fn_name := strConcat ((first :: rest).map fun f => f.function.name)
                 fn_arguments :=
                   strConcat ((first :: rest).map fun f => f.function.arguments) }] })] := by
  rw [List.map_cons, List.cons_append,
    runItems_cons_out _ _ _ _ _ _ rfl
      (processItem_toolMsg_fresh _ StreamerState.init first rfl),
    runItems_append,
    runItems_toolMsgs_same_index _ rest _ first rfl rfl hrest]
  simp only [List.map_cons, List.cons_append, List.nil_append]
  rw [runItems_cons_out _ _ _ _ _ _ rfl rfl]
  simp [runItems, processItem, handleDoneMessage, StreamerState.init,
    StreamerCapturedData.init, OpenAIToolCall.toToolCall,
    foldl_appendToolFragment_id, foldl_appendToolFragment_name,
    foldl_appendToolFragment_arguments, strConcat]

/-- Witness for C1: two fragments of one call (index 0), concrete strings. -/
theorem C1_witness :
    (runItems
      { adapter_kind := AdapterKind.OpenAI, capture_usage := false,
        capture_content := false, capture_reasoning_content := false,
        capture_tools := true }
      StreamerState.init
      [msgItem (toolMsg ⟨0, "c1", ⟨"get_weather", "ab"⟩⟩),
       msgItem (toolMsg ⟨0, "", ⟨"", "cd"⟩⟩),
       SourceItem.message MessageData.done]).1 =
    [StreamOut.event (InterStreamEvent.Chunk (InterStreamChunk.Tool 0 ⟨"c1", "get_weather", "ab"⟩)),
     StreamOut.event (InterStreamEvent.Chunk (InterStreamChunk.Tool 0 ⟨"", "", "cd"⟩)),
     StreamOut.event (InterStreamEvent.End ⟨none, none, none, [⟨"c1", "get_weather", "abcd"⟩]⟩)] := by
  have h := C1_same_index_fragments_concatenate
    { adapter_kind := AdapterKind.OpenAI, capture_usage := false,
      capture_content := false, capture_reasoning_content := false,
      capture_tools := true }
    ⟨0, "c1", ⟨"get_weather", "ab"⟩⟩ [⟨0, "", ⟨"", "cd"⟩⟩]
    (by intro f hf; simp at hf; subst hf; rfl)
  simpa [strConcat, OpenAIToolCall.toChunkTool] using h

/-! ## Structural step lemmas -/

/-- Processing a parsed chunk never changes the done latch. -/
theorem processParsed_done_eq (o : StreamerOptions) (st : StreamerState) (b : MessageBody) :
    (processParsed o st b).1.done = st.done := by
  obtain ⟨fc, xg, u⟩ := b
  cases fc with
  | none =>
    by_cases h : o.adapter_kind ≠ AdapterKind.Groq ∧ o.adapter_kind ≠ AdapterKind.Xai ∧
        o.adapter_kind ≠ AdapterKind.DeepSeek ∧
        st.captured_data.usage = none ∧ o.capture_usage = true
    · simp [processParsed, h]
    · simp [processParsed, h]
  | some c =>
    obtain ⟨fr, co, tc, rc⟩ := c
    cases fr <;> cases co <;> cases tc <;> cases rc <;> simp [processParsed]

/-- Processing a parsed chunk never emits the terminal End event. -/
theorem processParsed_no_end (o : StreamerOptions) (st : StreamerState) (b : MessageBody)
    (e : InterStreamEnd) :
    (processParsed o st b).2 ≠ some (InterStreamEvent.End e) := by
  obtain ⟨fc, xg, u⟩ := b
  cases fc with
  | none =>
    by_cases h : o.adapter_kind ≠ AdapterKind.Groq ∧ o.adapter_kind ≠ AdapterKind.Xai ∧
        o.adapter_kind ≠ AdapterKind.DeepSeek ∧
        st.captured_data.usage = none ∧ o.capture_usage = true
    · simp [processParsed, h]
    · simp [processParsed, h]
  | some c =>
    obtain ⟨fr, co, tc, rc⟩ := c
    cases fr <;> cases co <;> cases tc <;> cases rc <;> simp [processParsed]

/-- An item whose processing emits the End event leaves the done latch set. -/
theorem processItem_done_of_end (o : StreamerOptions) (st : StreamerState)
    (it : SourceItem) (e : InterStreamEnd)
    (h : (processItem o st it).2 = some (StreamOut.event (InterStreamEvent.End e))) :
    (processItem o st it).1.done = true := by
  cases it with
  | opened => simp [processItem] at h
  | transportError => simp [processItem] at h
  | message d =>
    cases d with
    | done => simp [processItem, handleDoneMessage]
    | malformed => simp [processItem] at h
    | parsed b =>
      exact absurd (by simpa [processItem] using h) (processParsed_no_end o st b e)

/-- An item whose processing leaves the done latch unset did not emit End. -/
theorem processItem_no_end_of_not_done (o : StreamerOptions) (st : StreamerState)
    (it : SourceItem) (e : InterStreamEnd)
    (h : (processItem o st it).1.done = false) :
    (processItem o st it).2 ≠ some (StreamOut.event (InterStreamEvent.End e)) := by
  intro hc
  rw [processItem_done_of_end o st it e hc] at h
  simp at h

/-- Recognizer for the terminal End event among surfaced results. -/
def isEndEvent : StreamOut → Bool
  | StreamOut.event (InterStreamEvent.End _) => true
  | _ => false

/-- At most one End event ever appears in a run: emitting it sets the done
latch and the latch stops all further processing. -/
theorem runItems_at_most_one_end (o : StreamerOptions) (st : StreamerState)
    (l : List SourceItem) :
    ((runItems o st l).1.filter isEndEvent).length ≤ 1 := by
  induction l generalizing st with
  | nil => simp [runItems]
  | cons it rest ih =>
    by_cases hd : st.done
    · simp [runItems, hd]
    · have hdf : st.done = false := by simpa using hd
      cases hp : processItem o st it with
      | mk st1 r? =>
        cases r? with
        | none =>
          rw [runItems_cons_silent o st it rest st1 hdf hp]
          exact ih st1
        | some r =>
          rw [runItems_cons_out o st it rest st1 r hdf hp]
          by_cases hdone1 : st1.done
          · rw [runItems_done o st1 rest hdone1]
            cases r with
            | event e => cases e <;> simp [isEndEvent]
            | parseError => simp [isEndEvent]
            | transportError => simp [isEndEvent]
          · have hne : ∀ e, r ≠ StreamOut.event (InterStreamEvent.End e) := by
              intro e hre
              have := processItem_no_end_of_not_done o st it e
                (by rw [hp]; simpa using hdone1)
              rw [hp] at this
              exact this (by simp [hre])
            have hr : isEndEvent r = false := by
              cases r with
              | event e =>
                cases e with
                | End e0 => exact absurd rfl (hne e0)
                | _ => rfl
              | parseError => rfl
              | transportError => rfl
            simp [List.filter, hr]
            exact ih st1

/-- Claim C6: the `[DONE]` sentinel transitions the streamer to the
terminal state and emits the End event; every drive request issued once the
done latch is set returns no further events without consuming anything from
the source; and no run ever surfaces more than one End event. -/
theorem C6_done_sentinel_terminal (o : StreamerOptions) :
    (∀ st : StreamerState, st.done = false →
      (processItem o st (SourceItem.message MessageData.done)).1.done = true ∧
      ∃ e, (processItem o st (SourceItem.message MessageData.done)).2 =
        some (StreamOut.event (InterStreamEvent.End e))) ∧
    (∀ (st : StreamerState) (input : List SourceItem), st.done = true →
      drive o st input = (st, input, DriveResult.doneNone)) ∧
    (∀ (st : StreamerState) (l : List SourceItem),
      ((runItems o st l).1.filter isEndEvent).length ≤ 1) := by
  refine ⟨fun st _ => ?_, fun st input h => ?_, fun st l => runItems_at_most_one_end o st l⟩
  · exact ⟨rfl, ⟨_, rfl⟩⟩
  · simp [drive, h]

/-- Witness for C6 at a concrete state and input. -/
theorem C6_witness :
    (processItem ⟨AdapterKind.OpenAI, true, true, true, true⟩ StreamerState.init
        (SourceItem.message MessageData.done)).1.done = true ∧
    drive ⟨AdapterKind.OpenAI, true, true, true, true⟩
        (processItem ⟨AdapterKind.OpenAI, true, true, true, true⟩ StreamerState.init
          (SourceItem.message MessageData.done)).1
        [msgItem (contentMsg "late")] =
      ((processItem ⟨AdapterKind.OpenAI, true, true, true, true⟩ StreamerState.init
          (SourceItem.message MessageData.done)).1,
        [msgItem (contentMsg "late")], DriveResult.doneNone) := by
  have h := C6_done_sentinel_terminal ⟨AdapterKind.OpenAI, true, true, true, true⟩
  exact ⟨(h.1 StreamerState.init rfl).1,
    h.2.1 _ [msgItem (contentMsg "late")] (h.1 StreamerState.init rfl).1⟩

/-- The first choice reduced to the single delta the streamer will handle:
finish signal first, then content, then tool call, then reasoning; every
lower-priority field is erased. -/
def dominantChoice (c : Choice) : Choice :=
  if c.finish_reason.isSome then
    { finish_reason := c.finish_reason, content := none, tool_call := none,
      reasoning_content := none }
  else match c.content with
  | some s =>
    { finish_reason := none, content := some s, tool_call := none, reasoning_content := none }
  | none => match c.tool_call with
    | some t =>
      { finish_reason := none, content := none, tool_call := some t, reasoning_content := none }
    | none =>
      { finish_reason := none, content := none, tool_call := none,
        reasoning_content := c.reasoning_content }

/-- Claim C10: a message whose first choice carries several delta kinds is
handled exactly as if only the highest-priority one (finish signal, then
content, then tool call, then reasoning) were present — the lower-priority
deltas affect neither the emitted event nor any state; and a first choice
carrying none of the fields emits nothing and leaves the state unchanged. -/
theorem C10_delta_priority (o : StreamerOptions) (st : StreamerState)
    (b : MessageBody) (c : Choice) (hb : b.first_choice = some c) :
    processParsed o st
        { first_choice := some (dominantChoice c), x_groq_usage := b.x_groq_usage,
          usage := b.usage } =
      processParsed o st b ∧
    (c.finish_reason = none → c.content = none → c.tool_call = none →
      c.reasoning_content = none → processParsed o st b = (st, none)) := by
  obtain ⟨fc, xg, u⟩ := b
  simp only [MessageBody.mk.injEq] at hb
  subst hb
  obtain ⟨fr, co, tc, rc⟩ := c
  cases fr <;> cases co <;> cases tc <;> cases rc <;>
    simp [processParsed, dominantChoice]

/-- Witness for C10: a message carrying a finish signal, a content delta
and a reasoning delta is handled as a pure finish signal. -/
theorem C10_witness :
    processParsed ⟨AdapterKind.OpenAI, false, true, true, true⟩ StreamerState.init
        { first_choice := some (dominantChoice
            ⟨some "stop", some "txt", none, some "think"⟩),
          x_groq_usage := none, usage := none } =
      processParsed ⟨AdapterKind.OpenAI, false, true, true, true⟩ StreamerState.init
        { first_choice := some ⟨some "stop", some "txt", none, some "think"⟩,
          x_groq_usage := none, usage := none } :=
  (C10_delta_priority ⟨AdapterKind.OpenAI, false, true, true, true⟩ StreamerState.init
    { first_choice := some ⟨some "stop", some "txt", none, some "think"⟩,
      x_groq_usage := none, usage := none }
    ⟨some "stop", some "txt", none, some "think"⟩ rfl).1

/-- Claim C4: where usage is captured from, by provider identity — Groq
takes `/x_groq/usage` at the finish signal; xAI and DeepSeek take `usage`
at the finish signal; every other provider takes usage only from a
usage-only payload (no first choice), never at the finish signal or at a
choice-bearing message; and a parsed payload never produces an error, in
particular an absent or null finish reason is not an error. -/
theorem C4_usage_capture_location (o : StreamerOptions) (st : StreamerState)
    (b : MessageBody) :
    (o.capture_usage = true → o.adapter_kind = AdapterKind.Groq → isFinishMsg b = true →
      (processParsed o st b).1.captured_data.usage = some (b.x_groq_usage.getD default)) ∧
    (o.capture_usage = true →
      (o.adapter_kind = AdapterKind.Xai ∨ o.adapter_kind = AdapterKind.DeepSeek) →
      isFinishMsg b = true →
      (processParsed o st b).1.captured_data.usage = some (b.usage.getD default)) ∧
    (o.adapter_kind ≠ AdapterKind.Groq → o.adapter_kind ≠ AdapterKind.Xai →
      o.adapter_kind ≠ AdapterKind.DeepSeek → isFinishMsg b = true →
      (processParsed o st b).1.captured_data.usage = st.captured_data.usage) ∧
    (o.capture_usage = true → o.adapter_kind ≠ AdapterKind.Groq →
      o.adapter_kind ≠ AdapterKind.Xai → o.adapter_kind ≠ AdapterKind.DeepSeek →
      b.first_choice = none → st.captured_data.usage = none →
      (processParsed o st b).1.captured_data.usage = some (b.usage.getD default)) ∧
    ((o.adapter_kind = AdapterKind.Groq ∨ o.adapter_kind = AdapterKind.Xai ∨
        o.adapter_kind = AdapterKind.DeepSeek) → b.first_choice = none →
      processParsed o st b = (st, none)) ∧
    (isFinishMsg b = false → b.first_choice ≠ none →
      (processParsed o st b).1.captured_data.usage = st.captured_data.usage) ∧
    (processItem o st (msgItem b)).2 ≠ some StreamOut.parseError ∧
    (processItem o st (msgItem b)).2 ≠ some StreamOut.transportError := by
  obtain ⟨fc, xg, u⟩ := b
  cases fc with
  | none =>
    refine ⟨by simp [isFinishMsg], by simp [isFinishMsg], by simp [isFinishMsg],
      fun hcu h1 h2 h3 _ hu => ?_, fun hk _ => ?_, by simp, ?_, ?_⟩
    · simp [processParsed, h1, h2, h3, hu, hcu]
    · rcases hk with hk | hk | hk <;> simp [processParsed, hk]
    · simp only [processItem, msgItem]
      by_cases h : o.adapter_kind ≠ AdapterKind.Groq ∧ o.adapter_kind ≠ AdapterKind.Xai ∧
          o.adapter_kind ≠ AdapterKind.DeepSeek ∧
          st.captured_data.usage = none ∧ o.capture_usage = true
      · simp [processParsed, h]
      · simp [processParsed, h]
    · simp only [processItem, msgItem]
      by_cases h : o.adapter_kind ≠ AdapterKind.Groq ∧ o.adapter_kind ≠ AdapterKind.Xai ∧
          o.adapter_kind ≠ AdapterKind.DeepSeek ∧
          st.captured_data.usage = none ∧ o.capture_usage = true
      · simp [processParsed, h]
      · simp [processParsed, h]
  | some c =>
    obtain ⟨fr, co, tc, rc⟩ := c
    cases fr with
    | some r =>
      refine ⟨fun hcu hk _ => ?_, fun hcu hk _ => ?_, fun h1 h2 h3 _ => ?_,
        by simp, by simp, by simp [isFinishMsg], ?_, ?_⟩
      · simp [processParsed, hk, hcu]
      · rcases hk with hk | hk <;> simp [processParsed, hk, hcu]
      · cases hak : o.adapter_kind <;> simp_all [processParsed]
      · cases co <;> cases tc <;> cases rc <;> simp [processItem, msgItem, processParsed]
      · cases co <;> cases tc <;> cases rc <;> simp [processItem, msgItem, processParsed]
    | none =>
      refine ⟨by simp [isFinishMsg], by simp [isFinishMsg], by simp [isFinishMsg],
        by simp, by simp, fun _ _ => ?_, ?_, ?_⟩
      · cases co <;> cases tc <;> cases rc <;> simp only [processParsed] <;>
          (repeat' split) <;> simp_all
      · cases co <;> cases tc <;> cases rc <;> simp [processItem, msgItem, processParsed]
      · cases co <;> cases tc <;> cases rc <;> simp [processItem, msgItem, processParsed]

/-- Witness for C4: Groq finish-signal capture at concrete input. -/
theorem C4_witness :
    (processParsed ⟨AdapterKind.Groq, true, false, false, false⟩ StreamerState.init
        (finishMsg (some ⟨5⟩) none)).1.captured_data.usage = some ⟨5⟩ := by
  have h := (C4_usage_capture_location ⟨AdapterKind.Groq, true, false, false, false⟩
    StreamerState.init (finishMsg (some ⟨5⟩) none)).1 rfl rfl rfl
  simpa [finishMsg] using h

/-- Counterexample to C2 as stated: after a decode error is surfaced the
done latch is not set, so a subsequent drive request does consume the next
message and does emit an event for it. -/
theorem C2_counterexample :
    (processItem ⟨AdapterKind.OpenAI, true, true, true, true⟩ StreamerState.init
        (SourceItem.message MessageData.malformed)).2 = some StreamOut.parseError ∧
    (drive ⟨AdapterKind.OpenAI, true, true, true, true⟩
        (processItem ⟨AdapterKind.OpenAI, true, true, true, true⟩ StreamerState.init
          (SourceItem.message MessageData.malformed)).1
        [msgItem (contentMsg "hi")]).2 =
      ([], DriveResult.out (StreamOut.event (InterStreamEvent.Chunk
          (InterStreamChunk.Content "hi")))) := by
  exact ⟨rfl, rfl⟩

/-- Claim C2 amended: within the drive request that surfaces a terminal
error (transport error, or decode error on a malformed payload), no event
is emitted for the failing message, the streamer state is unchanged (in
particular nothing is captured from the failing message), and no further
source items are consumed in that drive request.  The error is not latched:
suppression of all later events relies on the caller not driving the
streamer again after an error. -/
theorem C2_error_stops_drive_step (o : StreamerOptions) (st : StreamerState)
    (rest : List SourceItem) (h : st.done = false) :
    drive o st (SourceItem.message MessageData.malformed :: rest) =
      (st, rest, DriveResult.out StreamOut.parseError) ∧
    drive o st (SourceItem.transportError :: rest) =
      (st, rest, DriveResult.out StreamOut.transportError) := by
  constructor <;> simp [drive, driveLoop, processItem, h]

/-- Witness for the amended C2 at a concrete state and input. -/
theorem C2_witness :
    drive ⟨AdapterKind.OpenAI, true, true, true, true⟩ StreamerState.init
        [SourceItem.message MessageData.malformed, msgItem (contentMsg "hi")] =
      (StreamerState.init, [msgItem (contentMsg "hi")],
        DriveResult.out StreamOut.parseError) :=
  (C2_error_stops_drive_step ⟨AdapterKind.OpenAI, true, true, true, true⟩
    StreamerState.init [msgItem (contentMsg "hi")] rfl).1

/-- Counterexample to C7 as stated: after the End event is emitted, the
tool-call list is still present in the accumulator (the source `clone()`s
`captured_data.tools` into the End event instead of moving it out), so the
accumulator is not empty/default in every field. -/
theorem C7_counterexample :
    ((runItems ⟨AdapterKind.OpenAI, true, true, true, true⟩ StreamerState.init
        [msgItem (toolMsg ⟨0, "a", ⟨"f", "x"⟩⟩),
         SourceItem.message MessageData.done]).2).captured_data.tools =
      [{ call_id := "a", fn_name := "f", fn_arguments := "x" }] ∧
    ((runItems ⟨AdapterKind.OpenAI, true, true, true, true⟩ StreamerState.init
        [msgItem (toolMsg ⟨0, "a", ⟨"f", "x"⟩⟩),
         SourceItem.message MessageData.done]).2).captured_data.tools ≠ [] := by
  have h1 : ((runItems ⟨AdapterKind.OpenAI, true, true, true, true⟩ StreamerState.init
      [msgItem (toolMsg ⟨0, "a", ⟨"f", "x"⟩⟩),
       SourceItem.message MessageData.done]).2).captured_data.tools =
      [{ call_id := "a", fn_name := "f", fn_arguments := "x" }] := rfl
  refine ⟨h1, ?_⟩
  rw [h1]
  simp

/-- Claim C7 amended: when the End event is produced, the content,
reasoning and (when usage capture is enabled) usage accumulators are moved
out — the End event carries their prior values and they are empty
afterwards — while the tool-call list is copied: the End event and the
post-End accumulator hold the same list. -/
theorem C7_end_moves_all_but_tools (o : StreamerOptions) (st : StreamerState)
    (e : InterStreamEnd) (he : (handleDoneMessage o st).2 = InterStreamEvent.End e) :
    (handleDoneMessage o st).1.captured_data.content = none ∧
    (handleDoneMessage o st).1.captured_data.reasoning_content = none ∧
    (o.capture_usage = true → (handleDoneMessage o st).1.captured_data.usage = none) ∧
    e.captured_content = st.captured_data.content ∧
    e.captured_reasoning_content = st.captured_data.reasoning_content ∧
    (o.capture_usage = true → e.captured_usage = st.captured_data.usage) ∧
    e.captured_tools = (handleDoneMessage o st).1.captured_data.tools := by
  by_cases hcu : o.capture_usage <;>
    by_cases hct : o.capture_tools <;>
      cases hh : st.held_openai_tool_call <;>
        simp only [handleDoneMessage, hcu, hct, hh, InterStreamEvent.End.injEq,
          Bool.false_eq_true, if_true, if_false] at he <;>
          cases he <;> simp [handleDoneMessage, hcu, hct, hh]

/-- Witness for the amended C7 at a concrete state. -/
theorem C7_witness :
    (handleDoneMessage ⟨AdapterKind.OpenAI, true, true, true, true⟩
        ⟨false, ⟨some "txt", some "think", some ⟨3⟩, []⟩, some ⟨0, "a", ⟨"f", "x"⟩⟩⟩).1.captured_data.content
      = none ∧
    (handleDoneMessage ⟨AdapterKind.OpenAI, true, true, true, true⟩
        ⟨false, ⟨some "txt", some "think", some ⟨3⟩, []⟩, some ⟨0, "a", ⟨"f", "x"⟩⟩⟩).1.captured_data.usage
      = none := by
  have h := C7_end_moves_all_but_tools ⟨AdapterKind.OpenAI, true, true, true, true⟩
    ⟨false, ⟨some "txt", some "think", some ⟨3⟩, []⟩, some ⟨0, "a", ⟨"f", "x"⟩⟩⟩ _ rfl
  exact ⟨h.1, h.2.2.1 rfl⟩

/-- Counterexample to C8 as stated: with usage capture enabled on Groq, a
usage value captured at a first finish-signal message is overwritten by a
second finish-signal message (the finish branch writes unconditionally, it
is not first-write-wins). -/
theorem C8_counterexample :
    (runItems ⟨AdapterKind.Groq, true, false, false, false⟩ StreamerState.init
        [msgItem (finishMsg (some ⟨5⟩) none)]).2.captured_data.usage = some ⟨5⟩ ∧
    (runItems ⟨AdapterKind.Groq, true, false, false, false⟩ StreamerState.init
        [msgItem (finishMsg (some ⟨5⟩) none),
         msgItem (finishMsg (some ⟨7⟩) none)]).2.captured_data.usage = some ⟨7⟩ := by
  constructor <;> rfl

/-- Claim C8 amended: first-write-wins holds for the usage-only branch — a
usage value already captured is never overwritten by a later usage-only
payload (the streamer skips it and emits nothing) — while the finish-signal
branch for Groq, xAI and DeepSeek overwrites any previously captured usage
unconditionally. -/
theorem C8_usage_only_first_write_wins (o : StreamerOptions) (st : StreamerState)
    (b : MessageBody) (hb : b.first_choice = none)
    (hu : st.captured_data.usage.isSome = true) :
    processParsed o st b = (st, none) ∧
    (o.capture_usage = true → o.adapter_kind = AdapterKind.Groq → ∀ b2 : MessageBody,
      isFinishMsg b2 = true →
      (processParsed o st b2).1.captured_data.usage = some (b2.x_groq_usage.getD default)) := by
  constructor
  · obtain ⟨fc, xg, u⟩ := b
    simp only at hb
    subst hb
    have : ¬ st.captured_data.usage = none := by
      intro hc; rw [hc] at hu; simp at hu
    simp [processParsed, this]
  · intro hcu hk b2 hf2
    exact (C4_usage_capture_location o st b2).1 hcu hk hf2

/-- Witness for the amended C8 at a concrete state. -/
theorem C8_witness :
    processParsed ⟨AdapterKind.OpenAI, true, false, false, false⟩
        ⟨false, ⟨none, none, some ⟨5⟩, []⟩, none⟩ (usageOnlyMsg (some ⟨7⟩)) =
      (⟨false, ⟨none, none, some ⟨5⟩, []⟩, none⟩, none) :=
  (C8_usage_only_first_write_wins ⟨AdapterKind.OpenAI, true, false, false, false⟩
    ⟨false, ⟨none, none, some ⟨5⟩, []⟩, none⟩ (usageOnlyMsg (some ⟨7⟩)) rfl rfl).1

/-! ## Characterization of one parsed-message step -/

/-- The event a parsed chunk gives rise to, as a function of the payload
alone: the streamer's emission for a parsed message depends neither on its
state nor on the capture configuration. -/
def parsedOut? (m : MessageBody) : Option InterStreamEvent :=
  match contentDelta? m with
  | some s => some (InterStreamEvent.Chunk (InterStreamChunk.Content s))
  | none =>
    match toolDelta? m with
    | some t => some (InterStreamEvent.Chunk (InterStreamChunk.Tool t.index t.toChunkTool))
    | none =>
      match reasoningDelta? m with
      | some s => some (InterStreamEvent.ReasoningChunk (InterReasoningChunk.Content s))
      | none => none

theorem processParsed_out_char (o : StreamerOptions) (st : StreamerState)
    (m : MessageBody) : (processParsed o st m).2 = parsedOut? m := by
  obtain ⟨fc, xg, u⟩ := m
  cases fc with
  | none =>
    by_cases h : o.adapter_kind ≠ AdapterKind.Groq ∧ o.adapter_kind ≠ AdapterKind.Xai ∧
        o.adapter_kind ≠ AdapterKind.DeepSeek ∧
        st.captured_data.usage = none ∧ o.capture_usage = true
    · simp [processParsed, parsedOut?, contentDelta?, toolDelta?, reasoningDelta?, h]
    · simp [processParsed, parsedOut?, contentDelta?, toolDelta?, reasoningDelta?, h]
  | some c =>
    obtain ⟨fr, co, tc, rc⟩ := c
    cases fr <;> cases co <;> cases tc <;> cases rc <;>
      simp [processParsed, parsedOut?, contentDelta?, toolDelta?, reasoningDelta?]

theorem processParsed_held_char (o : StreamerOptions) (st : StreamerState)
    (m : MessageBody) :
    (processParsed o st m).1.held_openai_tool_call =
      match toolDelta? m with
      | some t =>
        match st.held_openai_tool_call with
        | some p => if t.index = p.index then some (appendToolFragment p t) else some t
        | none => some t
      | none => st.held_openai_tool_call := by
  obtain ⟨fc, xg, u⟩ := m
  cases fc with
  | none =>
    by_cases h : o.adapter_kind ≠ AdapterKind.Groq ∧ o.adapter_kind ≠ AdapterKind.Xai ∧
        o.adapter_kind ≠ AdapterKind.DeepSeek ∧
        st.captured_data.usage = none ∧ o.capture_usage = true
    · simp [processParsed, toolDelta?, h]
    · simp [processParsed, toolDelta?, h]
  | some c =>
    obtain ⟨fr, co, tc, rc⟩ := c
    cases fr <;> cases co <;> cases tc <;> cases rc <;>
      simp [processParsed, toolDelta?] <;>
        cases st.held_openai_tool_call <;> simp <;> (try split) <;> simp

/-- Running a block of parsed chunks: the emitted events are exactly the
per-message events of `parsedOut?`, and the final state is the fold of the
per-message state update. -/
theorem runItems_parsed_master (o : StreamerOptions) (msgs : List MessageBody) :
    ∀ st : StreamerState, st.done = false →
    runItems o st (msgs.map msgItem) =
      (msgs.filterMap (fun m => (parsedOut? m).map StreamOut.event),
       msgs.foldl (fun s m => (processParsed o s m).1) st) := by
  induction msgs with
  | nil => intro st _; simp [runItems]
  | cons m rest ih =>
    intro st hd
    have hdone1 : (processParsed o st m).1.done = false := by
      rw [processParsed_done_eq]; exact hd
    have hout := processParsed_out_char o st m
    cases ho : parsedOut? m with
    | none =>
      rw [List.map_cons,
        runItems_cons_silent o st _ _ (processParsed o st m).1 hd
          (by simp [processItem, msgItem, hout, ho]),
        ih (processParsed o st m).1 hdone1]
      simp [ho]
    | some e =>
      rw [List.map_cons,
        runItems_cons_out o st _ _ (processParsed o st m).1 (StreamOut.event e) hd
          (by simp [processItem, msgItem, hout, ho]),
        ih (processParsed o st m).1 hdone1]
      simp [ho]

/-! ## Capture-configuration independence of emission (C9) -/

/-- Recognizer for the non-terminal events: Start, content or tool Chunk,
ReasoningChunk. -/
def isNonTerminalEvent : StreamOut → Bool
  | StreamOut.event InterStreamEvent.Start => true
  | StreamOut.event (InterStreamEvent.Chunk _) => true
  | StreamOut.event (InterStreamEvent.ReasoningChunk _) => true
  | _ => false

theorem processItem_sim (o1 o2 : StreamerOptions)
    (st1 st2 : StreamerState) (it : SourceItem)
    (hd : st1.done = st2.done)
    (hheld : st1.held_openai_tool_call = st2.held_openai_tool_call) :
    (processItem o1 st1 it).1.done = (processItem o2 st2 it).1.done ∧
    ((processItem o1 st1 it).1.done = false →
      (processItem o1 st1 it).1.held_openai_tool_call =
        (processItem o2 st2 it).1.held_openai_tool_call) ∧
    ((processItem o1 st1 it).2.isNone = (processItem o2 st2 it).2.isNone) ∧
    (∀ r1 r2, (processItem o1 st1 it).2 = some r1 → (processItem o2 st2 it).2 = some r2 →
      isNonTerminalEvent r1 = isNonTerminalEvent r2 ∧
      (isNonTerminalEvent r1 = true → r1 = r2)) := by
  cases it with
  | opened =>
    refine ⟨hd, fun _ => hheld, rfl, fun r1 r2 h1 h2 => ?_⟩
    simp only [processItem] at h1 h2
    cases h1; cases h2
    exact ⟨rfl, fun _ => rfl⟩
  | transportError =>
    refine ⟨hd, fun _ => hheld, rfl, fun r1 r2 h1 h2 => ?_⟩
    simp only [processItem] at h1 h2
    cases h1; cases h2
    exact ⟨rfl, fun _ => rfl⟩
  | message d =>
    cases d with
    | done =>
      refine ⟨rfl, fun hc => ?_, rfl, fun r1 r2 h1 h2 => ?_⟩
      · have : (processItem o1 st1 (SourceItem.message MessageData.done)).1.done = true := rfl
        rw [this] at hc
        exact absurd hc (by simp)
      · simp only [processItem, handleDoneMessage, Option.some.injEq] at h1 h2
        refine ⟨by rw [← h1, ← h2]; rfl, fun hone => ?_⟩
        rw [← h1] at hone
        simp [isNonTerminalEvent] at hone
    | malformed =>
      refine ⟨hd, fun _ => hheld, rfl, fun r1 r2 h1 h2 => ?_⟩
      simp only [processItem] at h1 h2
      cases h1; cases h2
      exact ⟨rfl, fun _ => rfl⟩
    | parsed b =>
      have e1 := processParsed_out_char o1 st1 b
      have e2 := processParsed_out_char o2 st2 b
      have hh1 := processParsed_held_char o1 st1 b
      have hh2 := processParsed_held_char o2 st2 b
      refine ⟨?_, fun _ => ?_, ?_, fun r1 r2 h1 h2 => ?_⟩
      · simp only [processItem, processParsed_done_eq]
        exact hd
      · simp only [processItem]
        rw [hh1, hh2, hheld]
      · simp only [processItem, e1, e2]
      · simp only [processItem, e1, e2] at h1 h2
        cases hpo : parsedOut? b with
        | none => rw [hpo] at h1; simp at h1
        | some e =>
          rw [hpo] at h1 h2
          simp at h1 h2
          subst h1; subst h2
          exact ⟨rfl, fun _ => rfl⟩

/-- Claim C9: the sequence of non-terminal events (Start, content Chunk,
tool Chunk, ReasoningChunk) a streamer emits on a given input is the same
under any two capture configurations; capture flags only affect the
terminal End payload. -/
theorem C9_emission_independent_of_capture (k : AdapterKind)
    (cu1 cc1 cr1 ct1 cu2 cc2 cr2 ct2 : Bool) (l : List SourceItem) :
    ((runItems ⟨k, cu1, cc1, cr1, ct1⟩ StreamerState.init l).1.filter isNonTerminalEvent) =
    ((runItems ⟨k, cu2, cc2, cr2, ct2⟩ StreamerState.init l).1.filter isNonTerminalEvent) := by
  suffices h : ∀ (l : List SourceItem) (st1 st2 : StreamerState),
      st1.done = st2.done →
      (st1.done = false →
        st1.held_openai_tool_call = st2.held_openai_tool_call) →
      ((runItems ⟨k, cu1, cc1, cr1, ct1⟩ st1 l).1.filter isNonTerminalEvent) =
      ((runItems ⟨k, cu2, cc2, cr2, ct2⟩ st2 l).1.filter isNonTerminalEvent) by
    exact h l StreamerState.init StreamerState.init rfl (fun _ => rfl)
  intro l
  induction l with
  | nil => intro st1 st2 _ _; simp [runItems]
  | cons it rest ih =>
    intro st1 st2 hd hheld
    by_cases hd1 : st1.done
    · rw [runItems_cons_done _ st1 it rest hd1,
        runItems_cons_done _ st2 it rest (by rw [← hd]; exact hd1)]
    · have hd1f : st1.done = false := by simpa using hd1
      have hd2f : st2.done = false := by rw [← hd]; exact hd1f
      obtain ⟨sd, sh, sn, so⟩ :=
        processItem_sim ⟨k, cu1, cc1, cr1, ct1⟩ ⟨k, cu2, cc2, cr2, ct2⟩ st1 st2 it hd
          (hheld hd1f)
      cases h1 : (processItem ⟨k, cu1, cc1, cr1, ct1⟩ st1 it).2 with
      | none =>
        have h2 : (processItem ⟨k, cu2, cc2, cr2, ct2⟩ st2 it).2 = none := by
          rw [h1] at sn
          simpa using sn.symm
        rw [runItems_cons_silent _ st1 it rest _ hd1f (by rw [← h1]),
          runItems_cons_silent _ st2 it rest _ hd2f (by rw [← h2])]
        exact ih _ _ sd sh
      | some r1 =>
        cases h2 : (processItem ⟨k, cu2, cc2, cr2, ct2⟩ st2 it).2 with
        | none =>
          rw [h1, h2] at sn
          simp at sn
        | some r2 =>
          obtain ⟨hiso, heq⟩ := so r1 r2 h1 h2
          rw [runItems_cons_out _ st1 it rest _ r1 hd1f (by rw [← h1]),
            runItems_cons_out _ st2 it rest _ r2 hd2f (by rw [← h2])]
          cases hnt : isNonTerminalEvent r1 with
          | true =>
            have hr12 : r1 = r2 := heq hnt
            subst hr12
            simp only [List.filter_cons, hnt, if_true]
            rw [ih _ _ sd sh]
          | false =>
            have hnt2 : isNonTerminalEvent r2 = false := by rw [← hiso]; exact hnt
            simp only [List.filter_cons, hnt, hnt2]
            exact ih _ _ sd sh

/-! ## Per-field effect of one parsed-message step -/

theorem processParsed_content_char (o : StreamerOptions) (st : StreamerState)
    (m : MessageBody) :
    (processParsed o st m).1.captured_data.content =
      if o.capture_content = true then
        match contentDelta? m with
        | some s => some (st.captured_data.content.getD "" ++ s)
        | none => st.captured_data.content
      else st.captured_data.content := by
  obtain ⟨fc, xg, u⟩ := m
  cases fc with
  | none =>
    by_cases h : o.adapter_kind ≠ AdapterKind.Groq ∧ o.adapter_kind ≠ AdapterKind.Xai ∧
        o.adapter_kind ≠ AdapterKind.DeepSeek ∧
        st.captured_data.usage = none ∧ o.capture_usage = true
    · simp [processParsed, contentDelta?, h]
    · simp [processParsed, contentDelta?, h]
  | some c =>
    obtain ⟨fr, co, tc, rc⟩ := c
    cases fr <;> cases co <;> cases tc <;> cases rc <;>
      simp only [processParsed, contentDelta?] <;> (repeat' split) <;> simp_all

theorem processParsed_reasoning_char (o : StreamerOptions) (st : StreamerState)
    (m : MessageBody) :
    (processParsed o st m).1.captured_data.reasoning_content =
      if o.capture_reasoning_content = true then
        match reasoningDelta? m with
        | some s => some (st.captured_data.reasoning_content.getD "" ++ s)
        | none => st.captured_data.reasoning_content
      else st.captured_data.reasoning_content := by
  obtain ⟨fc, xg, u⟩ := m
  cases fc with
  | none =>
    by_cases h : o.adapter_kind ≠ AdapterKind.Groq ∧ o.adapter_kind ≠ AdapterKind.Xai ∧
        o.adapter_kind ≠ AdapterKind.DeepSeek ∧
        st.captured_data.usage = none ∧ o.capture_usage = true
    · simp [processParsed, reasoningDelta?, h]
    · simp [processParsed, reasoningDelta?, h]
  | some c =>
    obtain ⟨fr, co, tc, rc⟩ := c
    cases fr <;> cases co <;> cases tc <;> cases rc <;>
      simp only [processParsed, reasoningDelta?] <;> (repeat' split) <;> simp_all

set_option maxHeartbeats 1000000 in
theorem processParsed_tools_char (o : StreamerOptions) (st : StreamerState)
    (m : MessageBody) :
    (processParsed o st m).1.captured_data.tools =
      if o.capture_tools = true then
        match toolDelta? m, st.held_openai_tool_call with
        | some t, some p =>
          if t.index = p.index then st.captured_data.tools
          else st.captured_data.tools ++ [p.toToolCall]
        | _, _ => st.captured_data.tools
      else st.captured_data.tools := by
  obtain ⟨fc, xg, u⟩ := m
  cases fc with
  | none =>
    by_cases h : o.adapter_kind ≠ AdapterKind.Groq ∧ o.adapter_kind ≠ AdapterKind.Xai ∧
        o.adapter_kind ≠ AdapterKind.DeepSeek ∧
        st.captured_data.usage = none ∧ o.capture_usage = true
    · cases st.held_openai_tool_call <;> simp [processParsed, toolDelta?, h]
    · cases st.held_openai_tool_call <;> simp [processParsed, toolDelta?, h]
  | some c =>
    obtain ⟨fr, co, tc, rc⟩ := c
    cases fr <;> cases co <;> cases tc <;> cases rc <;>
      cases hh : st.held_openai_tool_call <;>
        simp only [processParsed, toolDelta?, hh] <;> (repeat' split) <;> simp_all

theorem processParsed_usage_off (o : StreamerOptions) (st : StreamerState)
    (m : MessageBody) (h : o.capture_usage = false) :
    (processParsed o st m).1.captured_data.usage = st.captured_data.usage := by
  obtain ⟨fc, xg, u⟩ := m
  cases fc with
  | none => simp [processParsed, h]
  | some c =>
    obtain ⟨fr, co, tc, rc⟩ := c
    cases fr <;> cases co <;> cases tc <;> cases rc <;>
      simp [processParsed, h] <;> (repeat' split) <;> simp

theorem processParsed_usage_monotone (o : StreamerOptions) (st : StreamerState)
    (m : MessageBody) (h : st.captured_data.usage.isSome = true) :
    (processParsed o st m).1.captured_data.usage.isSome = true := by
  obtain ⟨fc, xg, u⟩ := m
  cases fc with
  | none =>
    by_cases hc : o.adapter_kind ≠ AdapterKind.Groq ∧ o.adapter_kind ≠ AdapterKind.Xai ∧
        o.adapter_kind ≠ AdapterKind.DeepSeek ∧
        st.captured_data.usage = none ∧ o.capture_usage = true
    · simp [processParsed, hc]
    · simp [processParsed, hc, h]
  | some c =>
    obtain ⟨fr, co, tc, rc⟩ := c
    cases fr <;> cases co <;> cases tc <;> cases rc <;>
      simp [processParsed, h] <;> (repeat' split) <;> simp [h]

/-- The kind of message a given provider attaches usage to. -/
def usageObservedMsg (k : AdapterKind) (m : MessageBody) : Bool :=
  match k with
  | AdapterKind.Groq => isFinishMsg m
  | AdapterKind.Xai => isFinishMsg m
  | AdapterKind.DeepSeek => isFinishMsg m
  | _ => isUsageOnlyMsg m

theorem processParsed_usage_write (o : StreamerOptions) (st : StreamerState)
    (m : MessageBody) (hcu : o.capture_usage = true)
    (hobs : usageObservedMsg o.adapter_kind m = true) :
    (processParsed o st m).1.captured_data.usage.isSome = true := by
  have h4 := C4_usage_capture_location o st m
  cases hk : o.adapter_kind with
  | Groq =>
    rw [hk] at hobs
    simp only [usageObservedMsg] at hobs
    rw [h4.1 hcu hk hobs]
    rfl
  | Xai =>
    rw [hk] at hobs
    simp only [usageObservedMsg] at hobs
    rw [h4.2.1 hcu (Or.inl hk) hobs]
    rfl
  | DeepSeek =>
    rw [hk] at hobs
    simp only [usageObservedMsg] at hobs
    rw [h4.2.1 hcu (Or.inr hk) hobs]
    rfl
  | OpenAI =>
    rw [hk] at hobs
    simp only [usageObservedMsg, isUsageOnlyMsg] at hobs
    by_cases hu : st.captured_data.usage = none
    · rw [h4.2.2.2.1 hcu (by rw [hk]; simp) (by rw [hk]; simp) (by rw [hk]; simp)
        (by simpa using hobs) hu]
      rfl
    · exact processParsed_usage_monotone o st m (by simpa [Option.isSome_iff_ne_none] using hu)
  | Ollama =>
    rw [hk] at hobs
    simp only [usageObservedMsg, isUsageOnlyMsg] at hobs
    by_cases hu : st.captured_data.usage = none
    · rw [h4.2.2.2.1 hcu (by rw [hk]; simp) (by rw [hk]; simp) (by rw [hk]; simp)
        (by simpa using hobs) hu]
      rfl
    · exact processParsed_usage_monotone o st m (by simpa [Option.isSome_iff_ne_none] using hu)

/-! ## Accumulation across a run (C3) -/

/-- The content deltas the streamer handles, in arrival order. -/
def contentDeltas (msgs : List MessageBody) : List String := msgs.filterMap contentDelta?

/-- The reasoning deltas the streamer handles, in arrival order. -/
def reasoningDeltas (msgs : List MessageBody) : List String :=
  msgs.filterMap reasoningDelta?

/-- The iterated capture update for a running string accumulator. -/
def accumulate (c : Option String) (l : List String) : Option String :=
  l.foldl (fun acc s => some (acc.getD "" ++ s)) c

theorem accumulate_some (a : String) (l : List String) :
    accumulate (some a) l = some (a ++ strConcat l) := by
  induction l generalizing a with
  | nil => simp [accumulate, strConcat]
  | cons s rest ih =>
    show accumulate (some (a ++ s)) rest = _
    rw [ih (a ++ s)]
    simp [strConcat, String.append_assoc]

theorem accumulate_none (l : List String) :
    accumulate none l = if l.isEmpty = true then none else some (strConcat l) := by
  cases l with
  | nil => rfl
  | cons s rest =>
    have h0 : accumulate none (s :: rest) =
        accumulate (some ((none : Option String).getD "" ++ s)) rest := rfl
    rw [h0, accumulate_some]
    simp [strConcat]

theorem foldl_parsed_done (o : StreamerOptions) (msgs : List MessageBody)
    (st : StreamerState) :
    (msgs.foldl (fun s m => (processParsed o s m).1) st).done = st.done := by
  induction msgs generalizing st with
  | nil => rfl
  | cons m rest ih => rw [List.foldl_cons, ih, processParsed_done_eq]

theorem foldl_parsed_content (o : StreamerOptions) (msgs : List MessageBody) :
    ∀ st : StreamerState,
    (msgs.foldl (fun s m => (processParsed o s m).1) st).captured_data.content =
      if o.capture_content = true then
        accumulate st.captured_data.content (contentDeltas msgs)
      else st.captured_data.content := by
  induction msgs with
  | nil => intro st; simp [contentDeltas, accumulate]
  | cons m rest ih =>
    intro st
    rw [List.foldl_cons, ih]
    by_cases hcc : o.capture_content = true
    · simp only [hcc, if_true]
      rw [processParsed_content_char]
      simp only [hcc, if_true]
      cases hm : contentDelta? m with
      | some s =>
        simp only [contentDeltas, List.filterMap_cons, hm]
        rfl
      | none => simp only [contentDeltas, List.filterMap_cons, hm]
    · simp only [hcc, if_false]
      rw [processParsed_content_char]
      simp [hcc]

theorem foldl_parsed_reasoning (o : StreamerOptions) (msgs : List MessageBody) :
    ∀ st : StreamerState,
    (msgs.foldl (fun s m => (processParsed o s m).1) st).captured_data.reasoning_content =
      if o.capture_reasoning_content = true then
        accumulate st.captured_data.reasoning_content (reasoningDeltas msgs)
      else st.captured_data.reasoning_content := by
  induction msgs with
  | nil => intro st; simp [reasoningDeltas, accumulate]
  | cons m rest ih =>
    intro st
    rw [List.foldl_cons, ih]
    by_cases hcc : o.capture_reasoning_content = true
    · simp only [hcc, if_true]
      rw [processParsed_reasoning_char]
      simp only [hcc, if_true]
      cases hm : reasoningDelta? m with
      | some s =>
        simp only [reasoningDeltas, List.filterMap_cons, hm]
        rfl
      | none => simp only [reasoningDeltas, List.filterMap_cons, hm]
    · simp only [hcc, if_false]
      rw [processParsed_reasoning_char]
      simp [hcc]

theorem foldl_parsed_usage_off (o : StreamerOptions) (msgs : List MessageBody)
    (h : o.capture_usage = false) :
    ∀ st : StreamerState,
    (msgs.foldl (fun s m => (processParsed o s m).1) st).captured_data.usage =
      st.captured_data.usage := by
  induction msgs with
  | nil => intro st; rfl
  | cons m rest ih =>
    intro st
    rw [List.foldl_cons, ih, processParsed_usage_off o st m h]

theorem foldl_parsed_usage_observed (o : StreamerOptions) (msgs : List MessageBody)
    (hcu : o.capture_usage = true) :
    ∀ st : StreamerState,
    (st.captured_data.usage.isSome = true ∨
      msgs.any (usageObservedMsg o.adapter_kind) = true) →
    (msgs.foldl (fun s m => (processParsed o s m).1) st).captured_data.usage.isSome
      = true := by
  induction msgs with
  | nil =>
    intro st h
    rcases h with h | h
    · exact h
    · simp at h
  | cons m rest ih =>
    intro st h
    rw [List.foldl_cons]
    rcases h with h | h
    · exact ih _ (Or.inl (processParsed_usage_monotone o st m h))
    · rw [List.any_cons] at h
      rcases Bool.or_eq_true_iff.mp h with h | h
      · exact ih _ (Or.inl (processParsed_usage_write o st m hcu h))
      · exact ih _ (Or.inr h)

theorem foldl_parsed_tools_off (o : StreamerOptions) (msgs : List MessageBody)
    (h : o.capture_tools = false) :
    ∀ st : StreamerState,
    (msgs.foldl (fun s m => (processParsed o s m).1) st).captured_data.tools =
      st.captured_data.tools := by
  induction msgs with
  | nil => intro st; rfl
  | cons m rest ih =>
    intro st
    rw [List.foldl_cons, ih, processParsed_tools_char]
    simp [h]

theorem foldl_parsed_held_isSome (o : StreamerOptions) (msgs : List MessageBody) :
    ∀ st : StreamerState,
    (st.held_openai_tool_call.isSome = true ∨
      msgs.any (fun m => (toolDelta? m).isSome) = true) →
    (msgs.foldl (fun s m => (processParsed o s m).1) st).held_openai_tool_call.isSome
      = true := by
  induction msgs with
  | nil =>
    intro st h
    rcases h with h | h
    · exact h
    · simp at h
  | cons m rest ih =>
    intro st h
    rw [List.foldl_cons]
    have hstep : ∀ s : StreamerState,
        (s.held_openai_tool_call.isSome = true ∨ (toolDelta? m).isSome = true) →
        (processParsed o s m).1.held_openai_tool_call.isSome = true := by
      intro s hs
      rw [processParsed_held_char]
      cases hm : toolDelta? m with
      | some t => cases s.held_openai_tool_call <;> simp <;> (try split) <;> simp
      | none =>
        rcases hs with hs | hs
        · exact hs
        · rw [hm] at hs; simp at hs
    rcases h with h | h
    · exact ih _ (Or.inl (hstep st (Or.inl h)))
    · rw [List.any_cons] at h
      rcases Bool.or_eq_true_iff.mp h with h | h
      · exact ih _ (Or.inl (hstep st (Or.inr h)))
      · exact ih _ (Or.inr h)

/-! ## The End event payload -/

/-- The tool list the End event carries: the accumulator, with the held
partial call flushed onto it when tool capture is enabled. -/
def endTools (o : StreamerOptions) (st : StreamerState) : List ToolCall :=
  if o.capture_tools = true then
    match st.held_openai_tool_call with
    | some t => st.captured_data.tools ++ [t.toToolCall]
    | none => st.captured_data.tools
  else st.captured_data.tools

theorem handleDoneMessage_char (o : StreamerOptions) (st : StreamerState) :
    handleDoneMessage o st =
      ({ done := true,
         captured_data :=
           { content := none, reasoning_content := none,
             usage := if o.capture_usage = true then none else st.captured_data.usage,
             tools := endTools o st },
         held_openai_tool_call :=
           if o.capture_tools = true then none else st.held_openai_tool_call },
       InterStreamEvent.End
         { captured_usage := if o.capture_usage = true then st.captured_data.usage else none,
           captured_content := st.captured_data.content,
           captured_reasoning_content := st.captured_data.reasoning_content,
           captured_tools := endTools o st }) := by
  by_cases hcu : o.capture_usage = true <;> by_cases hct : o.capture_tools = true <;>
    cases hh : st.held_openai_tool_call <;>
      simp [handleDoneMessage, endTools, hcu, hct, hh]

/-! ## Emitted chunks, by kind -/

/-- The content text of a content Chunk output, if it is one. -/
def contentChunkOut? : StreamOut → Option String
  | StreamOut.event (InterStreamEvent.Chunk (InterStreamChunk.Content s)) => some s
  | _ => none

/-- The reasoning text of a ReasoningChunk output, if it is one. -/
def reasoningChunkOut? : StreamOut → Option String
  | StreamOut.event (InterStreamEvent.ReasoningChunk (InterReasoningChunk.Content s)) =>
    some s
  | _ => none

theorem contentChunkOut_parsedOut (m : MessageBody) :
    ((parsedOut? m).map StreamOut.event).bind contentChunkOut? = contentDelta? m := by
  obtain ⟨fc, xg, u⟩ := m
  cases fc with
  | none => rfl
  | some c =>
    obtain ⟨fr, co, tc, rc⟩ := c
    cases fr <;> cases co <;> cases tc <;> cases rc <;>
      simp [parsedOut?, contentDelta?, toolDelta?, reasoningDelta?, contentChunkOut?]

theorem reasoningChunkOut_parsedOut (m : MessageBody) :
    ((parsedOut? m).map StreamOut.event).bind reasoningChunkOut? = reasoningDelta? m := by
  obtain ⟨fc, xg, u⟩ := m
  cases fc with
  | none => rfl
  | some c =>
    obtain ⟨fr, co, tc, rc⟩ := c
    cases fr <;> cases co <;> cases tc <;> cases rc <;>
      simp [parsedOut?, contentDelta?, toolDelta?, reasoningDelta?, reasoningChunkOut?]

/-- One full stream: the given parsed chunks, then the `[DONE]` sentinel,
driven from the initial state. -/
def streamRun (o : StreamerOptions) (msgs : List MessageBody) :
    List StreamOut × StreamerState :=
  runItems o StreamerState.init (msgs.map msgItem ++ [SourceItem.message MessageData.done])

/-- The state reached after the parsed chunks, before the sentinel. -/
def foldState (o : StreamerOptions) (msgs : List MessageBody) : StreamerState :=
  msgs.foldl (fun s m => (processParsed o s m).1) StreamerState.init

theorem streamRun_char (o : StreamerOptions) (msgs : List MessageBody) :
    streamRun o msgs =
      (msgs.filterMap (fun m => (parsedOut? m).map StreamOut.event) ++
        [StreamOut.event (handleDoneMessage o (foldState o msgs)).2],
       (handleDoneMessage o (foldState o msgs)).1) := by
  unfold streamRun foldState
  rw [runItems_append, runItems_parsed_master o msgs StreamerState.init rfl]
  have hdF : (msgs.foldl (fun s m => (processParsed o s m).1) StreamerState.init).done
      = false := by
    rw [foldl_parsed_done]
    rfl
  rw [runItems_cons_out o _ _ _ _ _ hdF rfl]
  simp [runItems]

/-- Claim C3: for a stream ending in the sentinel, each capture flag is
necessary and sufficient for the matching field of the End event — with the
flag on, the field holds the accumulated data (content and reasoning: the
concatenated deltas; tools: a non-empty list when a tool delta was seen;
usage: present when a usage-bearing message for the provider was seen);
with the flag off the field is empty, while the individual content and
reasoning deltas are still emitted as chunk events either way. -/
theorem C3_capture_flag_necessary_sufficient (o : StreamerOptions)
    (msgs : List MessageBody) :
    ∃ e : InterStreamEnd,
      (streamRun o msgs).1.getLast? = some (StreamOut.event (InterStreamEvent.End e)) ∧
      (o.capture_content = false → e.captured_content = none) ∧
      (o.capture_content = true →
        e.captured_content =
          if (contentDeltas msgs).isEmpty = true then none
          else some (strConcat (contentDeltas msgs))) ∧
      (o.capture_reasoning_content = false → e.captured_reasoning_content = none) ∧
      (o.capture_reasoning_content = true →
        e.captured_reasoning_content =
          if (reasoningDeltas msgs).isEmpty = true then none
          else some (strConcat (reasoningDeltas msgs))) ∧
      (o.capture_tools = false → e.captured_tools = []) ∧
      (o.capture_tools = true → msgs.any (fun m => (toolDelta? m).isSome) = true →
        e.captured_tools ≠ []) ∧
      (o.capture_usage = false → e.captured_usage = none) ∧
      (o.capture_usage = true → msgs.any (usageObservedMsg o.adapter_kind) = true →
        e.captured_usage.isSome = true) ∧
      (streamRun o msgs).1.filterMap contentChunkOut? = contentDeltas msgs ∧
      (streamRun o msgs).1.filterMap reasoningChunkOut? = reasoningDeltas msgs := by
  have hchar := streamRun_char o msgs
  rw [handleDoneMessage_char] at hchar
  have hcontent : (foldState o msgs).captured_data.content =
      if o.capture_content = true then
        accumulate StreamerState.init.captured_data.content (contentDeltas msgs)
      else StreamerState.init.captured_data.content :=
    foldl_parsed_content o msgs StreamerState.init
  have hreason : (foldState o msgs).captured_data.reasoning_content =
      if o.capture_reasoning_content = true then
        accumulate StreamerState.init.captured_data.reasoning_content (reasoningDeltas msgs)
      else StreamerState.init.captured_data.reasoning_content :=
    foldl_parsed_reasoning o msgs StreamerState.init
  have hinitc : StreamerState.init.captured_data.content = none := rfl
  have hinitr : StreamerState.init.captured_data.reasoning_content = none := rfl
  dsimp only at hchar
  refine ⟨⟨if o.capture_usage = true then (foldState o msgs).captured_data.usage else none,
      (foldState o msgs).captured_data.content,
      (foldState o msgs).captured_data.reasoning_content,
      endTools o (foldState o msgs)⟩, ?_, ?_, ?_, ?_, ?_, ?_, ?_, ?_, ?_, ?_, ?_⟩
  · rw [hchar]
    exact List.getLast?_concat _
  · intro h
    show (foldState o msgs).captured_data.content = none
    rw [hcontent, hinitc]
    simp [h]
  · intro h
    show (foldState o msgs).captured_data.content = _
    rw [hcontent, hinitc]
    simp only [h, if_true]
    exact accumulate_none _
  · intro h
    show (foldState o msgs).captured_data.reasoning_content = none
    rw [hreason, hinitr]
    simp [h]
  · intro h
    show (foldState o msgs).captured_data.reasoning_content = _
    rw [hreason, hinitr]
    simp only [h, if_true]
    exact accumulate_none _
  · intro h
    show endTools o (foldState o msgs) = []
    have ht : (foldState o msgs).captured_data.tools =
        StreamerState.init.captured_data.tools :=
      foldl_parsed_tools_off o msgs h StreamerState.init
    unfold endTools
    rw [ht]
    simp [h, StreamerState.init, StreamerCapturedData.init]
  · intro h hobs
    show endTools o (foldState o msgs) ≠ []
    have hh : (foldState o msgs).held_openai_tool_call.isSome = true :=
      foldl_parsed_held_isSome o msgs StreamerState.init (Or.inr hobs)
    obtain ⟨t, htt⟩ := Option.isSome_iff_exists.mp hh
    unfold endTools
    rw [htt]
    simp [h]
  · intro h
    show (if o.capture_usage = true then (foldState o msgs).captured_data.usage
      else none) = none
    simp [h]
  · intro h hobs
    show (if o.capture_usage = true then (foldState o msgs).captured_data.usage
      else none).isSome = true
    have hu : (foldState o msgs).captured_data.usage.isSome = true :=
      foldl_parsed_usage_observed o msgs h StreamerState.init (Or.inr hobs)
    simp [h, hu]
  · rw [hchar, List.filterMap_append, List.filterMap_filterMap]
    simp only [contentChunkOut_parsedOut]
    simp [contentChunkOut?, contentDeltas]
  · rw [hchar, List.filterMap_append, List.filterMap_filterMap]
    simp only [reasoningChunkOut_parsedOut]
    simp [reasoningChunkOut?, reasoningDeltas]

/-- Witness for C3 at the spec's end-to-end scenario: two content deltas
and a usage-only payload, all capture flags on. -/
theorem C3_witness :
    ∃ e : InterStreamEnd,
      (streamRun ⟨AdapterKind.OpenAI, true, true, true, true⟩
          [contentMsg "Hi", contentMsg " there", usageOnlyMsg (some ⟨5⟩)]).1.getLast? =
        some (StreamOut.event (InterStreamEvent.End e)) ∧
      e.captured_content = some "Hi there" ∧
      e.captured_usage.isSome = true := by
  obtain ⟨e, h1, h2, h3, h4, h5, h6, h7, h8, h9, h10, h11⟩ :=
    C3_capture_flag_necessary_sufficient ⟨AdapterKind.OpenAI, true, true, true, true⟩
      [contentMsg "Hi", contentMsg " there", usageOnlyMsg (some ⟨5⟩)]
  refine ⟨e, h1, ?_, ?_⟩
  · rw [h3 rfl]
    decide
  · exact h9 rfl (by decide)

/-! ## Counting finalized tool calls (C5) -/

/-- Number of index changes along a fragment index sequence, starting from
a held call with index `i`: each change finalizes exactly one call. -/
def changesFrom (i : Nat) : List Nat → Nat
  | [] => 0
  | j :: rest => (if j = i then 0 else 1) + changesFrom j rest

/-- For a non-decreasing index sequence, the number of distinct indices is
one more than the number of adjacent changes. -/
theorem toFinset_card_of_chain (i : Nat) (l : List Nat)
    (hc : List.Chain' (· ≤ ·) (i :: l)) :
    (i :: l).toFinset.card = changesFrom i l + 1 := by
  induction l generalizing i with
  | nil => simp [changesFrom]
  | cons j rest ih =>
    have hij : i ≤ j := (List.chain'_cons.mp hc).1
    have hcj : List.Chain' (· ≤ ·) (j :: rest) := (List.chain'_cons.mp hc).2
    by_cases hji : j = i
    · subst hji
      rw [List.toFinset_cons, List.toFinset_cons, Finset.insert_idem,
        ← List.toFinset_cons]
      rw [ih j hcj]
      simp [changesFrom]
    · have hlt : i < j := lt_of_le_of_ne hij (fun h => hji h.symm)
      have hpw : List.Pairwise (· ≤ ·) (j :: rest) :=
        List.chain'_iff_pairwise.mp hcj
      have hni : i ∉ (j :: rest).toFinset := by
        rw [List.mem_toFinset]
        intro hmem
        rcases List.mem_cons.mp hmem with h | h
        · exact hji h.symm
        · exact absurd ((List.pairwise_cons.mp hpw).1 i h) (by omega)
      rw [List.toFinset_cons, Finset.card_insert_of_not_mem hni, ih j hcj]
      simp only [changesFrom, if_neg hji]
      omega

theorem processParsed_toolMsg_fresh (o : StreamerOptions) (st : StreamerState)
    (t : OpenAIToolCall) (hh : st.held_openai_tool_call = none) :
    (processParsed o st (toolMsg t)).1 =
      { st with held_openai_tool_call := some t } := by
  simp [processParsed, toolMsg, hh]

theorem processParsed_toolMsg_same (o : StreamerOptions) (st : StreamerState)
    (p t : OpenAIToolCall) (hh : st.held_openai_tool_call = some p)
    (hi : t.index = p.index) :
    (processParsed o st (toolMsg t)).1 =
      { st with held_openai_tool_call := some (appendToolFragment p t) } := by
  simp [processParsed, toolMsg, hh, hi]

theorem processParsed_toolMsg_new (o : StreamerOptions) (st : StreamerState)
    (p t : OpenAIToolCall) (hh : st.held_openai_tool_call = some p)
    (hi : ¬ t.index = p.index) (hct : o.capture_tools = true) :
    (processParsed o st (toolMsg t)).1 =
      ⟨st.done,
       ⟨st.captured_data.content, st.captured_data.reasoning_content,
        st.captured_data.usage, st.captured_data.tools ++ [p.toToolCall]⟩,
       some t⟩ := by
  simp [processParsed, toolMsg, hh, hi, hct]

theorem foldl_tool_count (o : StreamerOptions) (hct : o.capture_tools = true)
    (frags : List OpenAIToolCall) :
    ∀ (st : StreamerState) (p : OpenAIToolCall),
    st.held_openai_tool_call = some p →
    ((frags.foldl (fun s f => (processParsed o s (toolMsg f)).1)
        st).captured_data.tools.length =
      st.captured_data.tools.length +
        changesFrom p.index (frags.map (fun f => f.index))) ∧
    ∃ q, (frags.foldl (fun s f => (processParsed o s (toolMsg f)).1)
        st).held_openai_tool_call = some q := by
  induction frags with
  | nil =>
    intro st p hp
    exact ⟨by simp [changesFrom], p, hp⟩
  | cons f rest ih =>
    intro st p hp
    rw [List.foldl_cons, List.map_cons]
    by_cases hfi : f.index = p.index
    · rw [processParsed_toolMsg_same o st p f hp hfi]
      obtain ⟨hlen, hheld⟩ :=
        ih { st with held_openai_tool_call := some (appendToolFragment p f) }
          (appendToolFragment p f) rfl
      refine ⟨?_, hheld⟩
      rw [hlen, appendToolFragment_index]
      simp only [changesFrom]
      rw [if_pos hfi, hfi]
      omega
    · rw [processParsed_toolMsg_new o st p f hp hfi hct]
      obtain ⟨hlen, hheld⟩ :=
        ih ⟨st.done,
            ⟨st.captured_data.content, st.captured_data.reasoning_content,
             st.captured_data.usage, st.captured_data.tools ++ [p.toToolCall]⟩,
            some f⟩ f rfl
      refine ⟨?_, hheld⟩
      rw [hlen]
      have hproj : (⟨st.done,
          ⟨st.captured_data.content, st.captured_data.reasoning_content,
           st.captured_data.usage, st.captured_data.tools ++ [p.toToolCall]⟩,
          some f⟩ : StreamerState).captured_data.tools =
          st.captured_data.tools ++ [p.toToolCall] := rfl
      simp only [hproj, List.length_append]
      simp only [changesFrom]
      rw [if_neg hfi]
      simp only [List.length_singleton]
      omega

/-- Claim C5: with tool capture on — a fragment whose index differs from
the held call finalizes exactly one call into the accumulator; the final
flush at end-of-stream finalizes the held call exactly once; and for a
stream of tool fragments with non-decreasing indices ended by the sentinel,
the End event's finalized-call count equals the number of distinct indices
seen. -/
theorem C5_finalized_call_count (o : StreamerOptions) (hct : o.capture_tools = true)
    (frags : List OpenAIToolCall)
    (hchain : List.Chain' (· ≤ ·) (frags.map (fun f => f.index))) :
    (∀ (st : StreamerState) (p t : OpenAIToolCall),
      st.held_openai_tool_call = some p → t.index ≠ p.index →
      (processParsed o st (toolMsg t)).1.captured_data.tools =
        st.captured_data.tools ++ [p.toToolCall]) ∧
    (∀ (st : StreamerState) (p : OpenAIToolCall),
      st.held_openai_tool_call = some p →
      endTools o st = st.captured_data.tools ++ [p.toToolCall]) ∧
    ∃ e : InterStreamEnd,
      (streamRun o (frags.map toolMsg)).1.getLast? =
        some (StreamOut.event (InterStreamEvent.End e)) ∧
      e.captured_tools.length = (frags.map (fun f => f.index)).toFinset.card := by
  refine ⟨fun st p t hp hi => ?_, fun st p hp => ?_, ?_⟩
  · rw [processParsed_toolMsg_new o st p t hp hi hct]
  · unfold endTools
    rw [hp]
    simp [hct]
  · have hchar := streamRun_char o (frags.map toolMsg)
    rw [handleDoneMessage_char] at hchar
    dsimp only at hchar
    refine ⟨⟨if o.capture_usage = true then
        (foldState o (frags.map toolMsg)).captured_data.usage else none,
      (foldState o (frags.map toolMsg)).captured_data.content,
      (foldState o (frags.map toolMsg)).captured_data.reasoning_content,
      endTools o (foldState o (frags.map toolMsg))⟩, ?_, ?_⟩
    · rw [hchar]
      exact List.getLast?_concat _
    · show (endTools o (foldState o (frags.map toolMsg))).length = _
      have hfold : foldState o (frags.map toolMsg) =
          frags.foldl (fun s f => (processParsed o s (toolMsg f)).1)
            StreamerState.init := by
        unfold foldState
        rw [List.foldl_map]
      cases frags with
      | nil =>
        have h0 : foldState o (List.map toolMsg ([] : List OpenAIToolCall)) =
            StreamerState.init := rfl
        rw [h0]
        unfold endTools
        simp [StreamerState.init, StreamerCapturedData.init]
      | cons first rest =>
        rw [hfold, List.foldl_cons,
          processParsed_toolMsg_fresh o StreamerState.init first rfl]
        obtain ⟨hlen, q, hq⟩ := foldl_tool_count o hct rest
          { StreamerState.init with held_openai_tool_call := some first } first rfl
        unfold endTools
        rw [hq]
        simp only [hct, if_true, List.length_append, hlen]
        rw [List.map_cons,
          toFinset_card_of_chain first.index (rest.map (fun f => f.index))
            (by rw [List.map_cons] at hchain; exact hchain)]
        simp [StreamerState.init, StreamerCapturedData.init]

/-- Witness for C5: fragments with index sequence 0, 0, 1 yield exactly two
finalized calls. -/
theorem C5_witness :
    ∃ e : InterStreamEnd,
      (streamRun ⟨AdapterKind.OpenAI, false, false, false, true⟩
          ([⟨0, "c1", ⟨"get_weather", "ab"⟩⟩, ⟨0, "", ⟨"", "cd"⟩⟩,
            ⟨1, "c2", ⟨"g", ""⟩⟩].map toolMsg)).1.getLast? =
        some (StreamOut.event (InterStreamEvent.End e)) ∧
      e.captured_tools.length = 2 := by
  obtain ⟨_, _, e, h1, h2⟩ :=
    C5_finalized_call_count ⟨AdapterKind.OpenAI, false, false, false, true⟩ rfl
      [⟨0, "c1", ⟨"get_weather", "ab"⟩⟩, ⟨0, "", ⟨"", "cd"⟩⟩, ⟨1, "c2", ⟨"g", ""⟩⟩]
      (by simp [List.chain'_cons])
  exact ⟨e, h1, by rw [h2]; decide⟩

end GenAI
